import Mathlib

/-!
Verification of the workload discovery and reachability core
(`src/discovery` of the `agntcy/dir` repository).

The development shallowly embeds:
  * the `Workload` dataclass and its JSON codec (`watcher/models.py`),
  * the `ReachabilityResult` dataclass (`watcher/models.py`),
  * the in-memory indices and their maintenance
    (`server/storage/etcd.py`: `_update_index`, `_remove_from_index`,
    `_rebuild_indices`, `_identify_workload`, `find_reachable`),
  * the watcher-side storage variant (`watcher/storage/etcd.py`),
  * the Docker and containerd container-to-workload conversions
    (`watcher/runtimes/docker.py`, `watcher/runtimes/containerd.py`),
  * the containerd CNI state filename parsing
    (`watcher/runtimes/containerd.py`, `_get_cni_networks`).

Python dictionaries are modelled as insertion-ordered association lists
(`lookupA`, `setA`, `delA` mirror `d.get`, `d[k] = v`, `del d[k]`).
Python sets are modelled as duplicate-free lists; where the set iteration
order is observable (the `reachable_ids` loop in `find_reachable`) the
enumeration is taken as an explicit parameter, since CPython's set
iteration order is unspecified.
-/

/-- Python `d.get(k)` on an insertion-ordered dict modelled as an
association list: the value of the first entry whose key equals `k`. -/
def lookupA {α : Type} : List (String × α) → String → Option α
  | [], _ => none
  | (k', v) :: rest, k => if k' = k then some v else lookupA rest k

/-- Python `d[k] = v`: replace the value in place if the key is present,
otherwise append the new entry (dicts are insertion ordered). -/
def setA {α : Type} : List (String × α) → String → α → List (String × α)
  | [], k, v => [(k, v)]
  | (k', v') :: rest, k, v =>
      if k' = k then (k, v) :: rest else (k', v') :: setA rest k v

/-- Python `del d[k]` / `d.pop(k, None)`: drop the entry with key `k`. -/
def delA {α : Type} (m : List (String × α)) (k : String) : List (String × α) :=
  m.filter (fun p => p.1 ≠ k)

theorem lookupA_setA {α : Type} (m : List (String × α)) (k k' : String) (v : α) :
    lookupA (setA m k v) k' = if k = k' then some v else lookupA m k' := by
  induction m with
  | nil => by_cases h : k = k' <;> simp [setA, lookupA, h]
  | cons p rest ih =>
    obtain ⟨pk, pv⟩ := p
    by_cases h1 : pk = k
    · subst h1
      by_cases h2 : pk = k' <;> simp [setA, lookupA, h2, ih]
    · by_cases h2 : pk = k'
      · subst h2
        have : ¬ k = pk := fun h => h1 h.symm
        simp [setA, lookupA, h1, this]
      · simp [setA, lookupA, h1, h2, ih]

theorem lookupA_delA {α : Type} (m : List (String × α)) (k k' : String) :
    lookupA (delA m k) k' = if k = k' then none else lookupA m k' := by
  induction m with
  | nil => by_cases h : k = k' <;> simp [delA, lookupA, h]
  | cons p rest ih =>
    obtain ⟨pk, pv⟩ := p
    by_cases h1 : pk = k
    · subst h1
      by_cases h2 : pk = k'
      · subst h2
        simpa [delA, lookupA] using ih
      · have hcons : delA ((pk, pv) :: rest) pk = delA rest pk := by
          simp [delA]
        rw [hcons, ih]
        simp [lookupA, h2]
    · have hcons : delA ((pk, pv) :: rest) k = (pk, pv) :: delA rest k := by
        simp [delA, h1]
      by_cases h2 : pk = k'
      · subst h2
        have hne : ¬ k = pk := fun h => h1 h.symm
        rw [hcons]
        simp [lookupA, hne]
      · rw [hcons]
        simp [lookupA, h2, ih]

/-! ## The watcher `Workload` dataclass (`watcher/models.py`, lines 31-96)

Field names follow the Python dataclass; `namespace` is a Lean keyword and
is rendered `ns`.  The dataclass has no `ports` field. -/

/-- A value appearing in the dictionary produced by `dataclasses.asdict`
for a well-formed `Workload`: a string, a list of strings, or a
string-to-string dict (modelled as an insertion-ordered association list).
`Workload.to_dict` omits fields whose value is Python `None`, so `None`
never appears as a stored value. -/
inductive PyVal : Type where
  | vstr : String → PyVal
  | vlist : List String → PyVal
  | vdict : List (String × String) → PyVal
  deriving DecidableEq, Repr

/-- `Workload` from `watcher/models.py`: the unified workload record.
Optional fields are `Option`; list/dict fields are lists. -/
structure Workload : Type where
  id : String
  name : String
  hostname : String
  runtime : String
  workload_type : String
  node : Option String := none
  ns : Option String := none
  addresses : List String := []
  isolation_groups : List String := []
  labels : List (String × String) := []
  annotations : List (String × String) := []
  metadata : Option (List (String × String)) := none
  registrar : Option String := none
  deriving DecidableEq, Repr

/-- `Workload.to_dict`: `dataclasses.asdict` in field declaration order,
keeping only entries whose value is not `None`
(`{k: v for k, v in asdict(self).items() if v is not None}`). -/
def Workload.to_dict (w : Workload) : List (String × PyVal) :=
  [("id", PyVal.vstr w.id), ("name", PyVal.vstr w.name),
   ("hostname", PyVal.vstr w.hostname), ("runtime", PyVal.vstr w.runtime),
   ("workload_type", PyVal.vstr w.workload_type)]
  ++ (match w.node with | some s => [("node", PyVal.vstr s)] | none => [])
  ++ (match w.ns with | some s => [("namespace", PyVal.vstr s)] | none => [])
  ++ [("addresses", PyVal.vlist w.addresses),
      ("isolation_groups", PyVal.vlist w.isolation_groups),
      ("labels", PyVal.vdict w.labels),
      ("annotations", PyVal.vdict w.annotations)]
  ++ (match w.metadata with | some d => [("metadata", PyVal.vdict d)] | none => [])
  ++ (match w.registrar with | some s => [("registrar", PyVal.vstr s)] | none => [])

/-- `data.get(k, default)` for a string-valued field.  On the image of
`to_dict` the stored value always has the expected shape; the mismatch
branch is unreachable there. -/
def pyGetStr (d : List (String × PyVal)) (k : String) (dflt : String) : String :=
  match lookupA d k with
  | some (PyVal.vstr s) => s
  | _ => dflt

/-- `data.get(k)` for an optional string-valued field. -/
def pyGetOptStr (d : List (String × PyVal)) (k : String) : Option String :=
  match lookupA d k with
  | some (PyVal.vstr s) => some s
  | _ => none

/-- `data.get(k, [])` for a list-valued field. -/
def pyGetList (d : List (String × PyVal)) (k : String) : List String :=
  match lookupA d k with
  | some (PyVal.vlist l) => l
  | _ => []

/-- `data.get(k, {})` for a dict-valued field. -/
def pyGetDict (d : List (String × PyVal)) (k : String) : List (String × String) :=
  match lookupA d k with
  | some (PyVal.vdict l) => l
  | _ => []

/-- `data.get(k)` for an optional dict-valued field (`metadata`). -/
def pyGetOptDict (d : List (String × PyVal)) (k : String) :
    Option (List (String × String)) :=
  match lookupA d k with
  | some (PyVal.vdict l) => some l
  | _ => none

/-- `Workload.from_dict` (`watcher/models.py`, lines 74-91): each field is
read with `data.get` and the dataclass defaults. -/
def Workload.from_dict (d : List (String × PyVal)) : Workload :=
  { id := pyGetStr d "id" ""
    name := pyGetStr d "name" ""
    hostname := pyGetStr d "hostname" ""
    runtime := pyGetStr d "runtime" "docker"
    workload_type := pyGetStr d "workload_type" "container"
    node := pyGetOptStr d "node"
    ns := pyGetOptStr d "namespace"
    addresses := pyGetList d "addresses"
    isolation_groups := pyGetList d "isolation_groups"
    labels := pyGetDict d "labels"
    annotations := pyGetDict d "annotations"
    metadata := pyGetOptDict d "metadata"
    registrar := pyGetOptStr d "registrar" }

/-- `to_json` is `json.dumps(self.to_dict())` and `from_json` is
`from_dict(json.loads(s))`.  `json.dumps`/`json.loads` belong to the
Python standard library, not to this repository; their contract — parsing
the dump of a JSON-representable value yields an equal value — makes the
string layer the identity on the value domain, so the codec is modelled at
the dictionary level. -/
def Workload.roundTrip (w : Workload) : Workload :=
  Workload.from_dict w.to_dict

/-- `ReachabilityResult` from `watcher/models.py`, lines 99-115. -/
structure ReachabilityResult : Type where
  caller : Workload
  reachable : List Workload
  count : Nat
  deriving DecidableEq, Repr

/-- The `ReachabilityResult` constructor: whatever `count` argument is
supplied (default `0`), `__post_init__` overwrites it with
`len(self.reachable)`. -/
def ReachabilityResult.make (caller : Workload) (reachable : List Workload)
    (countArg : Nat := 0) : ReachabilityResult :=
  let _ := countArg
  { caller := caller, reachable := reachable, count := reachable.length }

/-! ## The query server's storage (`server/storage/etcd.py`)

The server imports `Workload` and `ReachabilityResult` from its own
`models` module, which is not under `src/` (only its importers are).  Its
`find_reachable` reads and re-passes a `ports` field
(`server/storage/etcd.py`, line 190), so the server's record carries one
more field than the watcher's. -/

/-- Modelled from the spec: the server's `models` module is missing from
`src/`; this is the `Workload` record it defines, with the fields of the
spec's data model (section 3) plus the `ports` list that
`server/storage/etcd.py` line 190 copies through the projection
constructor call. -/
structure SWorkload : Type where
  id : String
  name : String
  hostname : String
  runtime : String
  workload_type : String
  node : Option String := none
  ns : Option String := none
  addresses : List String := []
  isolation_groups : List String := []
  ports : List String := []
  labels : List (String × String) := []
  annotations : List (String × String) := []
  metadata : Option (List (String × String)) := none
  registrar : Option String := none
  deriving DecidableEq, Repr

/-- Modelled from the spec: the server's `ReachabilityResult`, as in the
watcher's `models.py` — `__post_init__` recomputes `count` as
`len(self.reachable)`. -/
structure SReachabilityResult : Type where
  caller : SWorkload
  reachable : List SWorkload
  count : Nat
  deriving DecidableEq, Repr

/-- The server `ReachabilityResult` constructor with `count` recomputation. -/
def SReachabilityResult.make (caller : SWorkload) (reachable : List SWorkload)
    (countArg : Nat := 0) : SReachabilityResult :=
  let _ := countArg
  { caller := caller, reachable := reachable, count := reachable.length }

/-- The four in-memory tables of `EtcdStorage`
(`server/storage/etcd.py`, lines 42-45): `_workloads`, `_by_hostname`,
`_by_name` and `_by_group` (a `defaultdict(set)`, modelled as an
association list of duplicate-free id lists). -/
structure SIndex : Type where
  workloads : List (String × SWorkload)
  byHostname : List (String × String)
  byName : List (String × String)
  byGroup : List (String × List String)
  deriving DecidableEq, Repr

/-- The freshly initialised (or freshly cleared) index. -/
def emptySIndex : SIndex :=
  { workloads := [], byHostname := [], byName := [], byGroup := [] }

/-- Python truthiness for an optional string: `None` and `""` are falsy. -/
def pyTruthy : Option String → Option String
  | some s => if s = "" then none else some s
  | none => none

/-- `self._by_group[group].add(workload_id)` with `defaultdict(set)`:
fetch the group's id set (creating an empty one if absent) and add the id. -/
def groupAdd (bg : List (String × List String)) (g wid : String) :
    List (String × List String) :=
  let s := (lookupA bg g).getD []
  setA bg g (if wid ∈ s then s else s ++ [wid])

/-- `self._by_group[group].discard(workload_id)` followed by
`if not self._by_group[group]: del self._by_group[group]`. -/
def groupDiscard (bg : List (String × List String)) (g wid : String) :
    List (String × List String) :=
  let s := (lookupA bg g).getD []
  let s' := s.filter (fun x => x ≠ wid)
  if s' = [] then delA bg g else setA bg g s'

/-- `name_key = f"{namespace}/{name}" if workload.namespace else
workload.name` (`server/storage/etcd.py`, line 303). -/
def nsNameKey (w : SWorkload) : String :=
  match pyTruthy w.ns with
  | some s => s ++ "/" ++ w.name
  | none => w.name

/-- `EtcdStorage._remove_from_index` (`server/storage/etcd.py`,
lines 291-316): no-op when the id is not indexed; otherwise delete the
hostname pointer if it still points to the id, the two name-form pointers
if they still point to the id, discard the id from each of the stored
workload's groups (dropping emptied groups), and delete the main entry.
The Python body mutates the four dicts one after another; as each step
touches a different dict (the two name-form deletions compose on
`_by_name`), the result is assembled component-wise. -/
def removeFromIndex (st : SIndex) (wid : String) : SIndex :=
  match lookupA st.workloads wid with
  | none => st
  | some w =>
    { workloads := delA st.workloads wid
      byHostname :=
        if w.hostname ≠ "" ∧ lookupA st.byHostname w.hostname = some wid then
          delA st.byHostname w.hostname
        else st.byHostname
      byName :=
        let b1 := if lookupA st.byName (nsNameKey w) = some wid then
            delA st.byName (nsNameKey w)
          else st.byName
        if lookupA b1 w.name = some wid then delA b1 w.name else b1
      byGroup := w.isolation_groups.foldl (fun bg g => groupDiscard bg g wid)
        st.byGroup }

/-- `EtcdStorage._update_index` (`server/storage/etcd.py`, lines 270-289):
remove any old entries, store the workload, point the hostname (when
non-empty), both name forms (the namespaced one only when the namespace is
truthy), and add the id to each isolation group's set.  As in
`removeFromIndex`, the sequential dict mutations are assembled
component-wise. -/
def updateIndex (st : SIndex) (wid : String) (w : SWorkload) : SIndex :=
  let st0 := removeFromIndex st wid
  { workloads := setA st0.workloads wid w
    byHostname :=
      if w.hostname ≠ "" then setA st0.byHostname w.hostname wid
      else st0.byHostname
    byName :=
      setA (match pyTruthy w.ns with
            | some s => setA st0.byName (s ++ "/" ++ w.name) wid
            | none => st0.byName) w.name wid
    byGroup := w.isolation_groups.foldl (fun bg g => groupAdd bg g wid)
      st0.byGroup }

/-- `EtcdStorage._identify_workload` (`server/storage/etcd.py`,
lines 205-225): hostname pointer first, then name pointer, then direct id,
then the first id of which `identity` is a prefix (dict iteration order,
which is insertion order).  Note that a dangling hostname or name pointer
makes the function return `None` without trying the later strategies,
exactly as the early `return` does in Python. -/
def serverIdentify (st : SIndex) (identity : String) : Option SWorkload :=
  match lookupA st.byHostname identity with
  | some wid => lookupA st.workloads wid
  | none =>
    match lookupA st.byName identity with
    | some wid => lookupA st.workloads wid
    | none =>
      match lookupA st.workloads identity with
      | some w => some w
      | none =>
        (st.workloads.find? (fun p => p.1.startsWith identity)).map (fun p => p.2)

/-! ## The reachability evaluator (`server/storage/etcd.py`, lines 124-201) -/

/-- `set(xs)` where only membership and emptiness are observed: the
duplicate-free list of first occurrences (CPython's set iteration order is
unspecified; this is one representative enumeration). -/
def pyDedup (l : List String) : List String :=
  l.foldl (fun acc x => if acc.contains x then acc else acc ++ [x]) []

/-- `addr.rsplit(".", 1)`: split at the last `'.'`; `none` when the string
contains no `'.'` (Python then returns a one-element list). -/
def splitLastDot : List Char → Option (List Char × List Char)
  | [] => none
  | c :: rest =>
    match splitLastDot rest with
    | some (l, r) => some (c :: l, r)
    | none => if c = '.' then some ([], rest) else none

/-- The body of the address-filtering loop
(`server/storage/etcd.py`, lines 167-177): an address splitting into two
parts at its last `'.'` is kept exactly when the suffix is a shared group;
an address with no `'.'` is kept unchanged. -/
def keepAddr (shared : List String) (addr : String) : Bool :=
  match splitLastDot addr.data with
  | some (_, sfx) => decide (String.mk sfx ∈ shared)
  | none => true

/-- `shared_groups = caller_groups & workload_groups` — the members of the
caller's (deduplicated) groups that the workload also has.  CPython
iterates a set in unspecified order; this list is one representative
enumeration of the set. -/
def sharedOf (callerGroups : List String) (w : SWorkload) : List String :=
  callerGroups.filter (fun g => decide (g ∈ w.isolation_groups))

/-- The projected record built at `server/storage/etcd.py`, lines 180-195:
every field of the stored workload is copied, `addresses` is replaced by
the filtered list and `isolation_groups` by `list(shared_groups)`. -/
def projectWorkload (callerGroups : List String) (w : SWorkload) : SWorkload :=
  let shared := sharedOf callerGroups w
  { w with
    addresses := w.addresses.filter (keepAddr shared)
    isolation_groups := shared }

/-- The contents of the `reachable_ids` set
(`server/storage/etcd.py`, lines 147-152): the union of `by_group[g]` over
the caller's groups, minus the caller's own id.  The list is one
enumeration of that set (first-seen order). -/
def candidateIds (st : SIndex) (caller : SWorkload) : List String :=
  ((pyDedup caller.isolation_groups).foldl
    (fun acc g =>
      acc ++ (((lookupA st.byGroup g).getD []).filter (fun x => !acc.contains x)))
    []).filter (fun x => x ≠ caller.id)

/-- The `for wid in reachable_ids` loop (lines 156-196): look the id up in
`_workloads` (skipping ids that vanished), compute the shared groups and
append the projected record. -/
def buildReachable (st : SIndex) (callerGroups : List String) :
    List String → List SWorkload
  | [] => []
  | wid :: rest =>
    match lookupA st.workloads wid with
    | none => buildReachable st callerGroups rest
    | some w => projectWorkload callerGroups w :: buildReachable st callerGroups rest

/-- Python's string comparison: lexicographic on code points. -/
def strLeL : List Char → List Char → Bool
  | [], _ => true
  | _ :: _, [] => false
  | a :: as, b :: bs =>
    if a.toNat < b.toNat then true
    else if b.toNat < a.toNat then false
    else strLeL as bs

/-- `a <= b` on Python strings. -/
def strLeB (a b : String) : Bool :=
  strLeL a.data b.data

/-- One step of a stable sort by a string key: insert `x` after every
already placed element whose key is `≤ key x`.  Elements with equal keys
keep their relative order, as Python's stable `list.sort` guarantees. -/
def insertKeyed {α : Type} (key : α → String) (x : α) : List α → List α
  | [] => [x]
  | y :: ys =>
    if strLeB (key y) (key x) then y :: insertKeyed key x ys else x :: y :: ys

/-- `l.sort(key=...)`: Python's stable sort, realised as a left-to-right
stable insertion sort, which produces the same list as any stable sort by
the same key. -/
def sortKeyed {α : Type} (key : α → String) (l : List α) : List α :=
  l.foldl (fun acc x => insertKeyed key x acc) []

/-- `reachable.sort(key=lambda w: w.name)` (line 199). -/
def sortByName (l : List SWorkload) : List SWorkload :=
  sortKeyed (fun w => w.name) l

/-- `EtcdStorage.find_reachable` (`server/storage/etcd.py`, lines
124-201).  `none` models the `ValueError` raised when the identity does
not resolve.  `ordering` is the enumeration order in which CPython yields
the `reachable_ids` set; any execution of the Python loop corresponds to
some such list. -/
def serverFindReachableWith (st : SIndex) (identity : String)
    (ordering : List String) : Option SReachabilityResult :=
  match serverIdentify st identity with
  | none => none
  | some caller =>
    let callerGroups := pyDedup caller.isolation_groups
    if callerGroups.isEmpty then
      some (SReachabilityResult.make caller [])
    else
      some (SReachabilityResult.make caller
        (sortByName (buildReachable st callerGroups ordering)))

/-! ## The watcher-side storage variant (`watcher/storage/etcd.py`)

Its `find_reachable` (lines 178-227) shares the identification and the
candidate-set computation with the server's, but builds each reachable
entry as a plain copy (`Workload.from_dict(workload.to_dict())`) with the
scraped metadata attached: no address filtering and no isolation-group
projection takes place. -/

/-- The watcher `EtcdStorage` in-memory tables
(`watcher/storage/etcd.py`, lines 42-46), including `_metadata`. -/
structure WIndex : Type where
  workloads : List (String × Workload)
  byHostname : List (String × String)
  byName : List (String × String)
  byGroup : List (String × List String)
  meta : List (String × List (String × String))
  deriving DecidableEq, Repr

/-- `EtcdStorage._identify_workload` (`watcher/storage/etcd.py`,
lines 312-332) — identical to the server's. -/
def watcherIdentify (st : WIndex) (identity : String) : Option Workload :=
  match lookupA st.byHostname identity with
  | some wid => lookupA st.workloads wid
  | none =>
    match lookupA st.byName identity with
    | some wid => lookupA st.workloads wid
    | none =>
      match lookupA st.workloads identity with
      | some w => some w
      | none =>
        (st.workloads.find? (fun p => p.1.startsWith identity)).map (fun p => p.2)

/-- The candidate ids of the watcher's `find_reachable`
(`watcher/storage/etcd.py`, lines 200-206), as for the server. -/
def wCandidateIds (st : WIndex) (caller : Workload) : List String :=
  ((pyDedup caller.isolation_groups).foldl
    (fun acc g =>
      acc ++ (((lookupA st.byGroup g).getD []).filter (fun x => !acc.contains x)))
    []).filter (fun x => x ≠ caller.id)

/-- The `for wid in reachable_ids` loop of the watcher's `find_reachable`
(lines 210-222): skip vanished ids, optionally skip services, and append
`Workload.from_dict(workload.to_dict())` with `metadata` set from the
`_metadata` table — the stored record is not projected. -/
def wBuildReachable (st : WIndex) (includeServices : Bool) :
    List String → List Workload
  | [] => []
  | wid :: rest =>
    match lookupA st.workloads wid with
    | none => wBuildReachable st includeServices rest
    | some w =>
      if !includeServices && w.workload_type == "service" then
        wBuildReachable st includeServices rest
      else
        { Workload.from_dict w.to_dict with metadata := lookupA st.meta wid }
          :: wBuildReachable st includeServices rest

/-- `EtcdStorage.find_reachable` (`watcher/storage/etcd.py`,
lines 178-227), with the set-enumeration order as a parameter as for the
server. -/
def watcherFindReachableWith (st : WIndex) (identity : String)
    (includeServices : Bool) (ordering : List String) :
    Option ReachabilityResult :=
  match watcherIdentify st identity with
  | none => none
  | some caller =>
    let callerGroups := pyDedup caller.isolation_groups
    if callerGroups.isEmpty then
      some (ReachabilityResult.make caller [])
    else
      some (ReachabilityResult.make caller
        (sortKeyed (fun w => w.name) (wBuildReachable st includeServices ordering)))

/-! ## Index rebuild (`server/storage/etcd.py`, `_rebuild_indices`,
lines 227-268)

The scan items are the `(value, metadata)` pairs yielded by
`client.get_prefix`; parsing the key `/discovery/workloads/{id}/{kind}`
yields the workload id and the kind (`"data"` or `"metadata"`).  A value
is either well-formed workload JSON or malformed (`json.JSONDecodeError`
from `Workload.from_json`).  The watcher's `rebuild_indices`
(`watcher/storage/etcd.py`, lines 251-296) has the same structure. -/

/-- A decoded KV value: well-formed workload JSON or malformed. -/
inductive RawVal : Type where
  | malformed : RawVal
  | wl : SWorkload → RawVal
  deriving DecidableEq, Repr

/-- One item of the prefix scan, with the key already split into the
workload id and the kind segment. -/
structure ScanItem : Type where
  wid : String
  kind : String
  val : RawVal
  deriving DecidableEq, Repr

/-- One iteration of the rebuild loop body: non-`data` keys are skipped
(`continue`); a `data` key is decoded with `Workload.from_json` — `none`
models the `json.JSONDecodeError` that propagates out of the loop. -/
def scanStep (st : SIndex) (it : ScanItem) : Option SIndex :=
  if it.kind = "data" then
    match it.val with
    | RawVal.malformed => none
    | RawVal.wl w => some (updateIndex st it.wid w)
  else
    some st

/-- The `for item in results` loop with the surrounding
`try ... except Exception`: an exception ends the loop, and since the
handler only logs, the indices keep the state reached so far. -/
def runScan (st : SIndex) : List ScanItem → SIndex
  | [] => st
  | it :: rest =>
    match scanStep st it with
    | none => st
    | some st' => runScan st' rest

/-- `EtcdStorage._rebuild_indices` (lines 227-268): clear all four tables
under the lock, then scan the prefix and apply `_update_index` per `data`
value. -/
def rebuildIndices (st : SIndex) (items : List ScanItem) : SIndex :=
  let _ := st
  runScan emptySIndex items

/-- The index states reached after each successful loop iteration (the
lock is released between iterations, so each is reader-observable). -/
def scanTrace (st : SIndex) : List ScanItem → List SIndex
  | [] => []
  | it :: rest =>
    match scanStep st it with
    | none => []
    | some st' => st' :: scanTrace st' rest

/-- All reader-observable index states of a rebuild that starts from
`st`: the state before the rebuild, the state right after the
`clear()` calls (lines 231-235), and the state after each applied item. -/
def rebuildTrace (st : SIndex) (items : List ScanItem) : List SIndex :=
  st :: emptySIndex :: scanTrace emptySIndex items

/-! ## Sequences of index operations (for the index invariants) -/

/-- An index maintenance operation, as driven by the watch loop:
`PUT` on a `data` key applies `_update_index`, `DELETE` applies
`_remove_from_index`. -/
inductive IndexOp : Type where
  | update : String → SWorkload → IndexOp
  | remove : String → IndexOp
  deriving DecidableEq, Repr

/-- Apply one operation. -/
def applyOp (st : SIndex) : IndexOp → SIndex
  | IndexOp.update wid w => updateIndex st wid w
  | IndexOp.remove wid => removeFromIndex st wid

/-- Apply a sequence of operations in order. -/
def applyOps (st : SIndex) (ops : List IndexOp) : SIndex :=
  ops.foldl applyOp st

/-! ## Runtime adapters: container-to-workload conversion

A Python dataclass constructor raises `TypeError` on a keyword argument
that is not a declared field; inside `_container_to_workload` the call
sits in a `try` whose handler returns `None`.  The constructor call is
modelled by checking the call-site keyword names against the dataclass
field list. -/

/-- The declared fields of the `Workload` dataclass
(`watcher/models.py`, lines 40-64) — there is no `ports` field. -/
def workloadFieldNames : List String :=
  ["id", "name", "hostname", "runtime", "workload_type", "node",
   "namespace", "addresses", "isolation_groups", "labels",
   "annotations", "metadata", "registrar"]

/-- The keyword arguments passed to `Workload(...)` at
`watcher/runtimes/docker.py`, lines 174-186. -/
def dockerCallKwargs : List String :=
  ["id", "name", "hostname", "runtime", "workload_type", "node",
   "namespace", "addresses", "isolation_groups", "ports", "labels"]

/-- The keyword arguments passed to `Workload(...)` at
`watcher/runtimes/containerd.py`, lines 263-275. -/
def containerdCallKwargs : List String :=
  ["id", "name", "hostname", "runtime", "workload_type", "node",
   "namespace", "addresses", "isolation_groups", "ports", "labels"]

/-- The container data the Docker adapter reads: `container.id`,
`container.name`, `container.labels`, the joined networks and the exposed
container ports. -/
structure DockerContainer : Type where
  id : String
  name : String
  labels : List (String × String)
  networks : List String
  exposedPorts : List String
  deriving DecidableEq, Repr

/-- `DockerAdapter._container_to_workload`
(`watcher/runtimes/docker.py`, lines 146-189): return `None` for a
container without the discover label; otherwise call the `Workload`
constructor — which raises `TypeError` on the `ports` keyword, caught by
the surrounding `except`, so the function returns `None`. -/
def dockerContainerToWorkload (labelKey labelValue : String)
    (c : DockerContainer) : Option Workload :=
  if lookupA c.labels labelKey ≠ some labelValue then
    none
  else if dockerCallKwargs.all (fun k => workloadFieldNames.contains k) then
    some { id := c.id, name := c.name, hostname := c.id.take 12,
           runtime := "docker", workload_type := "container",
           addresses := c.networks.map (fun n => c.name ++ "." ++ n),
           isolation_groups := c.networks,
           labels := c.labels }
  else
    none

/-- `DockerAdapter.list_workloads` (`watcher/runtimes/docker.py`,
lines 68-85): convert each listed container, keeping the non-`None`
results. -/
def dockerListWorkloads (labelKey labelValue : String)
    (cs : List DockerContainer) : List Workload :=
  cs.foldr
    (fun c acc =>
      match dockerContainerToWorkload labelKey labelValue c with
      | some w => w :: acc
      | none => acc)
    []

/-- The container data the containerd adapter reads for one listed
container: the id, the protobuf labels, whether its task is RUNNING, and
the CNI networks resolved for it. -/
structure ContainerdEntry : Type where
  id : String
  labels : List (String × String)
  running : Bool
  networks : List String
  deriving DecidableEq, Repr

/-- `ContainerdAdapter._container_to_workload`
(`watcher/runtimes/containerd.py`, lines 238-278): the `Workload`
constructor call passes a `ports` keyword, raising `TypeError`, caught by
the surrounding `except`, so the function returns `None`. -/
def containerdContainerToWorkload (e : ContainerdEntry) : Option Workload :=
  let name := (lookupA e.labels "nerdctl/name").getD (e.id.take 12)
  if containerdCallKwargs.all (fun k => workloadFieldNames.contains k) then
    some { id := e.id, name := name, hostname := e.id.take 12,
           runtime := "containerd", workload_type := "container",
           addresses := e.networks.map (fun n => name ++ "." ++ n),
           isolation_groups := e.networks,
           labels := e.labels }
  else
    none

/-- `ContainerdAdapter.list_workloads`
(`watcher/runtimes/containerd.py`, lines 91-136): keep label-matched
RUNNING containers and convert each, appending the non-`None` results. -/
def containerdListWorkloads (labelKey labelValue : String)
    (es : List ContainerdEntry) : List Workload :=
  es.foldr
    (fun e acc =>
      if lookupA e.labels labelKey ≠ some labelValue then acc
      else if !e.running then acc
      else
        match containerdContainerToWorkload e with
        | some w => w :: acc
        | none => acc)
    []

/-! ## containerd CNI filename parsing
(`watcher/runtimes/containerd.py`, `_get_cni_networks`, lines 318-374) -/

/-- `haystack.find(needle)`: index of the first occurrence of `needle`,
`none` when absent (Python returns `-1`; the caller only uses
`id_pos > 0`, so absence and position `0` behave alike). -/
def findSub : List Char → List Char → Option Nat
  | hay, needle =>
    if needle.isPrefixOf hay then some 0
    else
      match hay with
      | [] => none
      | _ :: rest => (findSub rest needle).map (fun n => n + 1)

/-- `s.rstrip("-")`: drop every trailing `'-'`. -/
def rstripDash (cs : List Char) : List Char :=
  (cs.reverse.dropWhile (fun c => c = '-')).reverse

/-- The filename-parsing part of `_get_cni_networks` (lines 349-363):
locate the first occurrence of the container id's 12-character prefix
(requiring a positive position), take everything before it, strip the
trailing dashes, drop the `-{namespace}` suffix when present, and return
the network name when non-empty. -/
def cniNetworkFromFilenameL (nsp cid filename : List Char) : Option (List Char) :=
  match findSub filename (cid.take 12) with
  | none => none
  | some idPos =>
    if idPos > 0 then
      let nn := rstripDash (filename.take idPos)
      let sfx := '-' :: nsp
      let nn := if sfx.isSuffixOf nn then nn.take (nn.length - sfx.length) else nn
      if nn ≠ [] then some nn else none
    else
      none

/-- String wrapper of the CNI filename parser. -/
def cniNetworkFromFilename (nsp cid filename : String) : Option String :=
  (cniNetworkFromFilenameL nsp.data cid.data filename.data).map String.mk

/-! ## Shared fixtures (the spec's end-to-end fixture, section 8) -/

/-- Fixture workload `w1` (server-side record). -/
def fxW1 : SWorkload :=
  { id := "w1", name := "api", hostname := "w1host", runtime := "docker",
    workload_type := "container", addresses := ["api.netA"],
    isolation_groups := ["netA"] }

/-- Fixture workload `w2` (server-side record). -/
def fxW2 : SWorkload :=
  { id := "w2", name := "db", hostname := "w2host", runtime := "docker",
    workload_type := "container", addresses := ["db.netA", "db.netB"],
    isolation_groups := ["netA", "netB"] }

/-- Fixture workload `w3` (server-side record). -/
def fxW3 : SWorkload :=
  { id := "w3", name := "cache", hostname := "w3host", runtime := "docker",
    workload_type := "container", addresses := ["cache.netB"],
    isolation_groups := ["netB"] }

/-- The server index after indexing the three fixture workloads. -/
def fxServerIndex : SIndex :=
  updateIndex (updateIndex (updateIndex emptySIndex "w1" fxW1) "w2" fxW2) "w3" fxW3

/-- The record `find_reachable("w1host")` is expected to return for `w2`:
`addresses` filtered to `["db.netA"]`, `isolation_groups` projected to
`["netA"]`. -/
def fxW2Projected : SWorkload :=
  { id := "w2", name := "db", hostname := "w2host", runtime := "docker",
    workload_type := "container", addresses := ["db.netA"],
    isolation_groups := ["netA"] }

/-! ## Claim C8 — codec round-trip -/

/-- C8: the workload codec round-trips — for every well-formed `Workload`,
`Workload.from_json(W.to_json())` equals `W` field-wise (the
`json.dumps`/`json.loads` string layer is the Python standard library,
modelled by its contract as the identity on the value domain, so the
round-trip is `from_dict ∘ to_dict`). -/
theorem C8_workload_codec_round_trip (w : Workload) : w.roundTrip = w := by
  obtain ⟨i, n, h, r, t, node, nsp, ad, ig, lb, an, md, rg⟩ := w
  cases node <;> cases nsp <;> cases md <;> cases rg <;> rfl

/-! ## Claim C10 — `count` always equals `len(reachable)` -/

/-- C10: every constructed `ReachabilityResult` has
`count == len(reachable)` regardless of the `count` value supplied to the
constructor (`__post_init__` recomputes it), and in particular every
result of either `find_reachable` satisfies it. -/
theorem C10_count_equals_reachable_length :
    (∀ (c : Workload) (r : List Workload) (n : Nat),
        (ReachabilityResult.make c r n).count = r.length) ∧
    (∀ (c : SWorkload) (r : List SWorkload) (n : Nat),
        (SReachabilityResult.make c r n).count = r.length) ∧
    (∀ (st : WIndex) (idy : String) (inc : Bool) (ord : List String)
        (res : ReachabilityResult),
        watcherFindReachableWith st idy inc ord = some res →
        res.count = res.reachable.length) ∧
    (∀ (st : SIndex) (idy : String) (ord : List String)
        (res : SReachabilityResult),
        serverFindReachableWith st idy ord = some res →
        res.count = res.reachable.length) := by
  refine ⟨fun c r n => rfl, fun c r n => rfl, ?_, ?_⟩
  · intro st idy inc ord res h
    unfold watcherFindReachableWith at h
    split at h
    · exact absurd h (by simp)
    · dsimp only at h
      split at h
      · cases Option.some.inj h
        rfl
      · cases Option.some.inj h
        rfl
  · intro st idy ord res h
    unfold serverFindReachableWith at h
    split at h
    · exact absurd h (by simp)
    · dsimp only at h
      split at h
      · cases Option.some.inj h
        rfl
      · cases Option.some.inj h
        rfl

/-- Witness for C10 at the end-to-end fixture: the server `find_reachable`
run on the fixture satisfies `count == len(reachable)`, and a directly
constructed result ignores a bogus supplied count of `7`. -/
theorem C10_witness :
    (SReachabilityResult.make fxW1 [fxW2Projected] 7).count = 1 := by
  have h := C10_count_equals_reachable_length.2.2.2 fxServerIndex "w1host" ["w2"]
      (SReachabilityResult.make fxW1 [fxW2Projected] 7) (by rfl)
  simpa using h

/-! ## Claim C3 — both container conversions always return `None` -/

theorem dockerConv_eq_none (lk lv : String) (c : DockerContainer) :
    dockerContainerToWorkload lk lv c = none := by
  unfold dockerContainerToWorkload
  split
  · rfl
  · rw [if_neg (by decide)]

theorem containerdConv_eq_none (e : ContainerdEntry) :
    containerdContainerToWorkload e = none := by
  unfold containerdContainerToWorkload
  rw [if_neg (by decide)]

/-- C3: for every configuration and container object, the Docker and the
containerd container-to-`Workload` conversions return `None` (the
`Workload` dataclass accepts no `ports` keyword, which both call sites
pass, so the constructor raises `TypeError` inside the conversion's
`try`), and consequently `list_workloads` of both adapters returns the
empty sequence for every runtime state. -/
theorem C3_conversions_none_and_lists_empty :
    (∀ (lk lv : String) (c : DockerContainer),
        dockerContainerToWorkload lk lv c = none) ∧
    (∀ (e : ContainerdEntry), containerdContainerToWorkload e = none) ∧
    (∀ (lk lv : String) (cs : List DockerContainer),
        dockerListWorkloads lk lv cs = []) ∧
    (∀ (lk lv : String) (es : List ContainerdEntry),
        containerdListWorkloads lk lv es = []) := by
  refine ⟨dockerConv_eq_none, containerdConv_eq_none, ?_, ?_⟩
  · intro lk lv cs
    induction cs with
    | nil => rfl
    | cons c rest ih =>
      unfold dockerListWorkloads at ih ⊢
      simp [dockerConv_eq_none, ih]
  · intro lk lv es
    induction es with
    | nil => rfl
    | cons e rest ih =>
      unfold containerdListWorkloads at ih ⊢
      simp only [List.foldr_cons]
      split
      · exact ih
      · split
        · exact ih
        · simp [containerdConv_eq_none, ih]

/-! ## Claim C9 — CNI filename parsing -/

theorem rstripDash_append_dash (l : List Char) :
    rstripDash (l ++ ['-']) = rstripDash l := by
  simp [rstripDash]

theorem rstripDash_of_getLast (l : List Char) (h : l.getLast? ≠ some '-') :
    rstripDash l = l := by
  unfold rstripDash
  rcases hrev : l.reverse with _ | ⟨c, t⟩
  · simp at hrev
    simp [hrev]
  · have hc : c ≠ '-' := by
      have hh : l.reverse.head? = some c := by rw [hrev]; rfl
      rw [List.head?_reverse] at hh
      intro hceq
      exact h (hceq ▸ hh)
    rw [List.dropWhile_cons]
    rw [if_neg (by simpa using hc)]
    rw [← hrev, List.reverse_reverse]

/-- The grammar case of the CNI filename parser: on a filename
`{network}-{namespace}-{container_id}-{interface}` whose first occurrence
of the container id's 12-character prefix is at the grammar position, the
parser yields exactly the network name. -/
theorem cniParseGrammar (network nsp cid iface : List Char)
    (hfind : findSub (network ++ '-' :: nsp ++ '-' :: cid ++ '-' :: iface)
        (cid.take 12) = some (network.length + nsp.length + 2))
    (hns : nsp ≠ []) (hnsd : nsp.getLast? ≠ some '-') (hnet : network ≠ []) :
    cniNetworkFromFilenameL nsp cid
        (network ++ '-' :: nsp ++ '-' :: cid ++ '-' :: iface) = some network := by
  unfold cniNetworkFromFilenameL
  rw [hfind]
  dsimp only
  rw [if_pos (by omega)]
  have hsplitfn : network ++ '-' :: nsp ++ '-' :: cid ++ '-' :: iface =
      (network ++ '-' :: nsp ++ ['-']) ++ (cid ++ '-' :: iface) := by
    simp
  have htake : (network ++ '-' :: nsp ++ '-' :: cid ++ '-' :: iface).take
      (network.length + nsp.length + 2) = network ++ '-' :: nsp ++ ['-'] := by
    rw [hsplitfn, List.take_left']
    simp
    omega
  rw [htake]
  have hstrip : rstripDash (network ++ '-' :: nsp ++ ['-']) = network ++ '-' :: nsp := by
    have h1 : network ++ '-' :: nsp ++ ['-'] = (network ++ '-' :: nsp) ++ ['-'] := by
      simp
    rw [h1, rstripDash_append_dash]
    apply rstripDash_of_getLast
    have h2 : network ++ '-' :: nsp = (network ++ ['-']) ++ nsp := by simp
    rw [h2, List.getLast?_append_of_ne_nil _ hns]
    exact hnsd
  rw [hstrip]
  have hsfx : ('-' :: nsp).isSuffixOf (network ++ '-' :: nsp) = true := by
    rw [List.isSuffixOf_iff_suffix]
    exact List.suffix_append network ('-' :: nsp)
  rw [if_pos hsfx]
  have hlen : (network ++ '-' :: nsp).length - ('-' :: nsp).length = network.length := by
    simp
  rw [hlen, List.take_left]
  rw [if_pos hnet]

/-- The 64-hex container id of the spec's CNI parsing scenario. -/
def fxCid64 : String :=
  "abc123def456aaaabbbbccccddddeeeeffff0000111122223333444455556666"

/-- C9: the CNI state reader parses `{network}-{namespace}-{container_id}-
{interface}` by locating the first occurrence of the container id's
12-character prefix, taking everything before it minus the trailing `-`,
and stripping the configured namespace suffix, yielding the network name;
in particular, with namespace `default` and a 64-hex container id starting
`abc123def456`, `"net-a-default-{id}-eth0"` parses to `net-a` and
`"discovery_team-a-default-{id}-eth0"` to `discovery_team-a`. -/
theorem C9_cni_filename_parsing :
    (∀ (network nsp cid iface : List Char),
      findSub (network ++ '-' :: nsp ++ '-' :: cid ++ '-' :: iface)
          (cid.take 12) = some (network.length + nsp.length + 2) →
      nsp ≠ [] → nsp.getLast? ≠ some '-' → network ≠ [] →
      cniNetworkFromFilenameL nsp cid
          (network ++ '-' :: nsp ++ '-' :: cid ++ '-' :: iface) = some network) ∧
    cniNetworkFromFilename "default" fxCid64
        ("net-a-default-" ++ fxCid64 ++ "-eth0") = some "net-a" ∧
    cniNetworkFromFilename "default" fxCid64
        ("discovery_team-a-default-" ++ fxCid64 ++ "-eth0") =
      some "discovery_team-a" :=
  ⟨cniParseGrammar, by decide, by decide⟩

/-- Witness for C9's general part, instantiated at the spec's first
concrete filename. -/
theorem C9_witness :
    cniNetworkFromFilenameL "default".data fxCid64.data
        ("net-a-default-" ++ fxCid64 ++ "-eth0").data = some "net-a".data :=
  C9_cni_filename_parsing.1 "net-a".data "default".data fxCid64.data "eth0".data
    (by decide) (by decide) (by decide) (by decide)

/-! ## Claim C2 — which addresses escape the group-suffix filter -/

theorem splitLastDot_eq_none (cs : List Char) (h : '.' ∉ cs) :
    splitLastDot cs = none := by
  induction cs with
  | nil => rfl
  | cons c rest ih =>
    have h1 : c ≠ '.' := fun hc => h (by simp [hc])
    have h2 : '.' ∉ rest := fun hr => h (by simp [hr])
    unfold splitLastDot
    rw [ih h2]
    simp [h1]

/-- C2 (amended): only an address containing no `'.'` at all escapes the
group-suffix filter.  Every address containing a `'.'` is split at its
last `'.'` and kept exactly when the suffix is a shared group: it is
dropped whenever its last-dot suffix is not a shared group name — which
covers the Kubernetes shapes `"{ip}:{port}"` and
`"{dns}.svc.cluster.local:{port}"` as well as a dotted bare `"{ip}"` —
and an address without any `'.'` is kept unchanged. -/
theorem C2_filter_drops_dotted_kubernetes_shapes :
    (∀ (shared : List String) (addr : String) (pre sfx : List Char),
      splitLastDot addr.data = some (pre, sfx) →
      String.mk sfx ∉ shared →
      keepAddr shared addr = false) ∧
    (∀ (shared : List String) (addr : String) (pre sfx : List Char),
      splitLastDot addr.data = some (pre, sfx) →
      String.mk sfx ∈ shared →
      keepAddr shared addr = true) ∧
    (∀ (shared : List String) (addr : String),
      '.' ∉ addr.data → keepAddr shared addr = true) := by
  refine ⟨?_, ?_, ?_⟩
  · intro shared addr pre sfx hsplit hnm
    unfold keepAddr
    rw [hsplit]
    exact decide_eq_false hnm
  · intro shared addr pre sfx hsplit hm
    unfold keepAddr
    rw [hsplit]
    exact decide_eq_true hm
  · intro shared addr h
    unfold keepAddr
    rw [splitLastDot_eq_none addr.data h]

/-- The fixture `w2` with a Kubernetes-shape address added first. -/
def fxW2K : SWorkload :=
  { id := "w2", name := "db", hostname := "w2host", runtime := "kubernetes",
    workload_type := "pod", addresses := ["10.0.0.1:8080", "db.netA"],
    isolation_groups := ["netA", "netB"] }

/-- An index holding the caller `w1` and the workload `w2` that carries
the Kubernetes-shape address `"10.0.0.1:8080"`. -/
def cex2Index : SIndex :=
  updateIndex (updateIndex emptySIndex "w1" fxW1) "w2" fxW2K

/-- Counterexample for C2 as stated: the stored workload `w2` carries the
Kubernetes-shape address `"10.0.0.1:8080"` and shares `netA` with the
caller, yet the projected record returned by `find_reachable` does not
keep it — the filter split it at its last `'.'` and dropped it because the
suffix `"1:8080"` is not a shared group. -/
theorem C2_counterexample :
    "10.0.0.1:8080" ∈ fxW2K.addresses ∧
    (serverFindReachableWith cex2Index "w1host" ["w2"]).map
        (fun r => r.reachable.map (fun w => w.addresses)) = some [["db.netA"]] ∧
    keepAddr ["netA"] "10.0.0.1:8080" = false := by
  refine ⟨by decide, by decide, by decide⟩

/-- Witness for C2's amended statement at concrete inputs: a
`"{ip}:{port}"` address and a dotted bare `"{ip}"` are dropped, a
`"{name}.{group}"` address with a shared suffix and a dotless address are
kept. -/
theorem C2_witness :
    keepAddr ["netA"] "10.0.0.1:8080" = false ∧
    keepAddr ["netA"] "10.0.0.1" = false ∧
    keepAddr ["netA"] "db.netA" = true ∧
    keepAddr ["netA"] "bare-hostname" = true := by
  refine ⟨?_, ?_, ?_, ?_⟩
  · exact C2_filter_drops_dotted_kubernetes_shapes.1 ["netA"] "10.0.0.1:8080"
      "10.0.0".data "1:8080".data (by decide) (by decide)
  · exact C2_filter_drops_dotted_kubernetes_shapes.1 ["netA"] "10.0.0.1"
      "10.0.0".data "1".data (by decide) (by decide)
  · exact C2_filter_drops_dotted_kubernetes_shapes.2.1 ["netA"] "db.netA"
      "db".data "netA".data (by decide) (by decide)
  · exact C2_filter_drops_dotted_kubernetes_shapes.2.2 ["netA"] "bare-hostname"
      (by decide)


/-- Fixture workload `w1` as the watcher's `Workload` record. -/
def fxV1 : Workload :=
  { id := "w1", name := "api", hostname := "w1host", runtime := "docker",
    workload_type := "container", addresses := ["api.netA"],
    isolation_groups := ["netA"] }

/-- Fixture workload `w2` as the watcher's `Workload` record. -/
def fxV2 : Workload :=
  { id := "w2", name := "db", hostname := "w2host", runtime := "docker",
    workload_type := "container", addresses := ["db.netA", "db.netB"],
    isolation_groups := ["netA", "netB"] }

/-- Fixture workload `w3` as the watcher's `Workload` record. -/
def fxV3 : Workload :=
  { id := "w3", name := "cache", hostname := "w3host", runtime := "docker",
    workload_type := "container", addresses := ["cache.netB"],
    isolation_groups := ["netB"] }

/-- The watcher-side index holding the three fixture workloads. -/
def fxWatcherIndex : WIndex :=
  { workloads := [("w1", fxV1), ("w2", fxV2), ("w3", fxV3)],
    byHostname := [("w1host", "w1"), ("w2host", "w2"), ("w3host", "w3")],
    byName := [("api", "w1"), ("db", "w2"), ("cache", "w3")],
    byGroup := [("netA", ["w1", "w2"]), ("netB", ["w2", "w3"])],
    meta := [] }

/-! ## Claim C7 — ordering of the `reachable` sequence -/

theorem strLeL_total (a b : List Char) (h : strLeL a b = false) :
    strLeL b a = true := by
  induction a generalizing b with
  | nil => simp [strLeL] at h
  | cons x xs ih =>
    cases b with
    | nil => simp [strLeL]
    | cons y ys =>
      unfold strLeL at h ⊢
      by_cases h1 : x.toNat < y.toNat
      · rw [if_pos h1] at h
        exact absurd h (by simp)
      · rw [if_neg h1] at h
        by_cases h2 : y.toNat < x.toNat
        · rw [if_pos h2]
        · rw [if_neg h2] at h
          rw [if_neg h2, if_neg h1]
          exact ih ys h

theorem strLeL_trans (a b c : List Char) (hab : strLeL a b = true)
    (hbc : strLeL b c = true) : strLeL a c = true := by
  induction a generalizing b c with
  | nil => simp [strLeL]
  | cons x xs ih =>
    cases b with
    | nil => simp [strLeL] at hab
    | cons y ys =>
      cases c with
      | nil => simp [strLeL] at hbc
      | cons z zs =>
        unfold strLeL at hab hbc ⊢
        by_cases h1 : x.toNat < y.toNat <;> by_cases h2 : y.toNat < x.toNat <;>
          by_cases h3 : y.toNat < z.toNat <;> by_cases h4 : z.toNat < y.toNat <;>
          by_cases h5 : x.toNat < z.toNat <;> by_cases h6 : z.toNat < x.toNat <;>
          simp only [h1, h2, h3, h4, h5, h6, if_pos, if_neg, if_true, if_false,
            reduceIte] at hab hbc ⊢ <;>
          first
          | trivial
          | omega
          | (simp at hab)
          | (simp at hbc)
          | (exact ih ys zs hab hbc)

theorem strLeB_total (a b : String) (h : strLeB a b = false) :
    strLeB b a = true :=
  strLeL_total a.data b.data h

theorem strLeB_trans (a b c : String) (hab : strLeB a b = true)
    (hbc : strLeB b c = true) : strLeB a c = true :=
  strLeL_trans a.data b.data c.data hab hbc

theorem mem_insertKeyed {α : Type} (key : α → String) (x z : α) (l : List α) :
    z ∈ insertKeyed key x l ↔ z = x ∨ z ∈ l := by
  induction l with
  | nil => simp [insertKeyed]
  | cons y ys ih =>
    unfold insertKeyed
    by_cases h : strLeB (key y) (key x) = true
    · rw [if_pos h]
      simp only [List.mem_cons, ih]
      tauto
    · rw [if_neg h]
      simp only [List.mem_cons]

theorem pairwise_insertKeyed {α : Type} (key : α → String) (x : α) (l : List α)
    (h : l.Pairwise (fun a b => strLeB (key a) (key b) = true)) :
    (insertKeyed key x l).Pairwise (fun a b => strLeB (key a) (key b) = true) := by
  induction l with
  | nil => simp [insertKeyed]
  | cons y ys ih =>
    rcases List.pairwise_cons.mp h with ⟨hy, hys⟩
    unfold insertKeyed
    by_cases hle : strLeB (key y) (key x) = true
    · rw [if_pos hle]
      refine List.pairwise_cons.mpr ⟨?_, ih hys⟩
      intro z hz
      rcases (mem_insertKeyed key x z ys).mp hz with hzx | hzy
      · exact hzx ▸ hle
      · exact hy z hzy
    · rw [if_neg hle]
      refine List.pairwise_cons.mpr ⟨?_, h⟩
      intro z hz
      have hxy : strLeB (key x) (key y) = true :=
        strLeB_total _ _ (Bool.not_eq_true _ ▸ eq_false_of_ne_true hle)
      rcases List.mem_cons.mp hz with hz1 | hz2
      · exact hz1 ▸ hxy
      · exact strLeB_trans _ _ _ hxy (hy z hz2)

theorem pairwise_sortKeyed {α : Type} (key : α → String) (l : List α) :
    (sortKeyed key l).Pairwise (fun a b => strLeB (key a) (key b) = true) := by
  suffices h : ∀ acc : List α,
      acc.Pairwise (fun a b => strLeB (key a) (key b) = true) →
      (l.foldl (fun acc x => insertKeyed key x acc) acc).Pairwise
        (fun a b => strLeB (key a) (key b) = true) by
    exact h [] List.Pairwise.nil
  induction l with
  | nil => intro acc hacc; exact hacc
  | cons x xs ih =>
    intro acc hacc
    exact ih (insertKeyed key x acc) (pairwise_insertKeyed key x acc hacc)

theorem mem_sortKeyed {α : Type} (key : α → String) (z : α) (l : List α) :
    z ∈ sortKeyed key l ↔ z ∈ l := by
  suffices h : ∀ acc : List α,
      (z ∈ l.foldl (fun acc x => insertKeyed key x acc) acc ↔ z ∈ acc ∨ z ∈ l) by
    simpa using h []
  induction l with
  | nil => intro acc; simp
  | cons x xs ih =>
    intro acc
    rw [List.foldl_cons, ih (insertKeyed key x acc)]
    simp [mem_insertKeyed]
    tauto

/-- C7 (amended): the `reachable` sequence of every result of
`find_reachable` — the server's and the watcher's variant alike — is
sorted by `name` ascending (`strLeB` is the lexicographic string order
Python's sort uses); nothing orders equal names — both variants sort with
`key=lambda w: w.name` only, so ties keep the unspecified set-iteration
order of the candidate ids instead of being broken by id. -/
theorem C7_reachable_sorted_by_name :
    (∀ (st : SIndex) (idy : String) (ord : List String)
        (res : SReachabilityResult),
      serverFindReachableWith st idy ord = some res →
      res.reachable.Pairwise (fun a b => strLeB a.name b.name = true)) ∧
    (∀ (st : WIndex) (idy : String) (inc : Bool) (ord : List String)
        (res : ReachabilityResult),
      watcherFindReachableWith st idy inc ord = some res →
      res.reachable.Pairwise (fun a b => strLeB a.name b.name = true)) := by
  constructor
  · intro st idy ord res h
    unfold serverFindReachableWith at h
    split at h
    · exact absurd h (by simp)
    · dsimp only at h
      split at h
      · cases Option.some.inj h
        exact List.Pairwise.nil
      · cases Option.some.inj h
        exact pairwise_sortKeyed (fun w : SWorkload => w.name) _
  · intro st idy inc ord res h
    unfold watcherFindReachableWith at h
    split at h
    · exact absurd h (by simp)
    · dsimp only at h
      split at h
      · cases Option.some.inj h
        exact List.Pairwise.nil
      · cases Option.some.inj h
        exact pairwise_sortKeyed (fun w : Workload => w.name) _

/-- Witness for C7 at the end-to-end fixture, for both variants. -/
theorem C7_witness :
    (SReachabilityResult.make fxW1 [fxW2Projected]).reachable.Pairwise
      (fun a b => strLeB a.name b.name = true) ∧
    (ReachabilityResult.make fxV1 [fxV2]).reachable.Pairwise
      (fun a b => strLeB a.name b.name = true) :=
  ⟨C7_reachable_sorted_by_name.1 fxServerIndex "w1host" ["w2"]
      (SReachabilityResult.make fxW1 [fxW2Projected]) (by decide),
    C7_reachable_sorted_by_name.2 fxWatcherIndex "w1host" true ["w2"]
      (ReachabilityResult.make fxV1 [fxV2]) (by decide)⟩

/-- The caller of the C7 counterexample. -/
def cexC7Caller : SWorkload :=
  { id := "c0", name := "caller", hostname := "chost", runtime := "docker",
    workload_type := "container", addresses := ["caller.netA"],
    isolation_groups := ["netA"] }

/-- A workload named `"same"` with id `"a1"`. -/
def cexC7A : SWorkload :=
  { id := "a1", name := "same", hostname := "ah", runtime := "docker",
    workload_type := "container", addresses := ["same.netA"],
    isolation_groups := ["netA"] }

/-- A workload named `"same"` with id `"b1"`. -/
def cexC7B : SWorkload :=
  { id := "b1", name := "same", hostname := "bh", runtime := "docker",
    workload_type := "container", addresses := ["same.netA"],
    isolation_groups := ["netA"] }

/-- Index with the caller and the two equal-named workloads. -/
def cexC7Index : SIndex :=
  updateIndex (updateIndex (updateIndex emptySIndex "c0" cexC7Caller)
    "a1" cexC7A) "b1" cexC7B

/-- Counterexample for C7 as stated: with the legitimate candidate-set
enumeration `["b1", "a1"]` (the candidate set is exactly `{a1, b1}`, and
CPython yields a set in unspecified order), the returned `reachable`
sequence has two records with equal names whose ids appear in descending
order (`"b1"` before `"a1"`, and `"b1" ≤ "a1"` is false) — the stable
sort by name alone does not break ties by id ascending. -/
theorem C7_counterexample :
    (serverFindReachableWith cexC7Index "chost" ["b1", "a1"]).map
        (fun r => r.reachable.map (fun w => (w.name, w.id))) =
      some [("same", "b1"), ("same", "a1")] ∧
    (∀ x ∈ ["b1", "a1"], x ∈ candidateIds cexC7Index cexC7Caller) ∧
    (∀ x ∈ candidateIds cexC7Index cexC7Caller, x ∈ ["b1", "a1"]) ∧
    List.Nodup ["b1", "a1"] ∧
    serverIdentify cexC7Index "chost" = some cexC7Caller ∧
    strLeB "b1" "a1" = false := by
  refine ⟨by decide, by decide, by decide, by decide, by decide, by decide⟩

/-! ## Claims C4 and C5 — behaviour of the index rebuild -/

theorem cons_scanTrace_getLast (items : List ScanItem) : ∀ st : SIndex,
    (st :: scanTrace st items).getLast? = some (runScan st items) := by
  induction items with
  | nil => intro st; rfl
  | cons it rest ih =>
    intro st
    cases h : scanStep st it with
    | none => simp [scanTrace, runScan, h]
    | some st' =>
      simp only [scanTrace, runScan, h]
      rw [List.getLast?_cons_cons]
      exact ih st'

/-- C5 (amended): a rebuild does not diff the new KV state into the old
index — it clears the index first.  The reader-observable state sequence
of `_rebuild_indices` starts with the pre-rebuild state, immediately
followed by the completely empty index (the `clear()` calls), and ends
with the rebuilt view; a reader between the clear and the re-insertion of
a workload observes an index without it. -/
theorem C5_rebuild_clears_before_repopulating (old : SIndex)
    (items : List ScanItem) :
    (rebuildTrace old items).head? = some old ∧
    (rebuildTrace old items).get? 1 = some emptySIndex ∧
    (rebuildTrace old items).getLast? = some (rebuildIndices old items) := by
  refine ⟨rfl, rfl, ?_⟩
  unfold rebuildTrace rebuildIndices
  rw [List.getLast?_cons_cons]
  exact cons_scanTrace_getLast items emptySIndex

/-- A `data` scan item whose value fails JSON decoding. -/
def badScanItem (wid : String) : ScanItem :=
  { wid := wid, kind := "data", val := RawVal.malformed }

theorem runScan_cut_at_malformed (wid : String) (post : List ScanItem) :
    ∀ (pre : List ScanItem) (st : SIndex),
    runScan st (pre ++ badScanItem wid :: post) = runScan st pre := by
  intro pre
  induction pre with
  | nil => intro st; rfl
  | cons it rest ih =>
    intro st
    cases h : scanStep st it with
    | none => simp [runScan, h]
    | some st' =>
      simp only [List.cons_append, runScan, h]
      exact ih st'

/-- C4 (amended): a malformed `data` value does not merely skip one
workload — the `json.JSONDecodeError` escapes the scan loop and is caught
only outside it, so the rebuild ends there: the rebuilt index is exactly
the one obtained from the items before the malformed value, and every
well-formed workload after it stays unindexed (the watcher's
`rebuild_indices` has the same `try`/loop structure). -/
theorem C4_rebuild_aborts_at_malformed (old : SIndex) (pre post : List ScanItem)
    (wid : String) :
    rebuildIndices old (pre ++ badScanItem wid :: post) = runScan emptySIndex pre :=
  runScan_cut_at_malformed wid post pre emptySIndex

/-- A well-formed workload scanned before the malformed KV value. -/
def fxG1 : SWorkload :=
  { id := "g1", name := "good1", hostname := "g1host", runtime := "docker",
    workload_type := "container", addresses := ["good1.netA"],
    isolation_groups := ["netA"] }

/-- A well-formed workload scanned after the malformed KV value. -/
def fxG2 : SWorkload :=
  { id := "g2", name := "good2", hostname := "g2host", runtime := "docker",
    workload_type := "container", addresses := ["good2.netA"],
    isolation_groups := ["netA"] }

/-- A KV prefix scan with one malformed value between two well-formed
ones. -/
def cex4Items : List ScanItem :=
  [{ wid := "g1", kind := "data", val := RawVal.wl fxG1 },
   { wid := "bad", kind := "data", val := RawVal.malformed },
   { wid := "g2", kind := "data", val := RawVal.wl fxG2 }]

/-- Counterexample for C4 as stated: after rebuilding from a KV state
with the well-formed `g1`, a malformed value, and the well-formed `g2`
(in scan order), `g1` is indexed but `g2` — a well-formed workload — is
not: the malformed value prevented another workload from being indexed. -/
theorem C4_counterexample :
    (lookupA (rebuildIndices emptySIndex cex4Items).workloads "g1").isSome ∧
    lookupA (rebuildIndices emptySIndex cex4Items).workloads "g2" = none ∧
    ScanItem.mk "g2" "data" (RawVal.wl fxG2) ∈ cex4Items := by
  refine ⟨by decide, by decide, by decide⟩

/-- A KV scan carrying the same three fixture workloads that the
pre-rebuild index already holds. -/
def cex5Items : List ScanItem :=
  [{ wid := "w1", kind := "data", val := RawVal.wl fxW1 },
   { wid := "w2", kind := "data", val := RawVal.wl fxW2 },
   { wid := "w3", kind := "data", val := RawVal.wl fxW3 }]

/-- Counterexample for C5 as stated: `w1` is present in the old index and
in the new KV state, yet it is not queryable at every intermediate point
of the rebuild — the completely empty index is among the
reader-observable states. -/
theorem C5_counterexample :
    ¬ (∀ s ∈ rebuildTrace fxServerIndex cex5Items,
        (lookupA s.workloads "w1").isSome) ∧
    (lookupA fxServerIndex.workloads "w1").isSome ∧
    (lookupA (rebuildIndices fxServerIndex cex5Items).workloads "w1").isSome ∧
    emptySIndex ∈ rebuildTrace fxServerIndex cex5Items := by
  refine ⟨by decide, by decide, by decide, by decide⟩

/-! ## Claim C1 — the projection performed by `find_reachable` -/

theorem lookupA_mem {α : Type} (m : List (String × α)) (k : String) (v : α)
    (h : lookupA m k = some v) : (k, v) ∈ m := by
  induction m with
  | nil => cases h
  | cons p rest ih =>
    obtain ⟨pk, pv⟩ := p
    unfold lookupA at h
    by_cases hk : pk = k
    · rw [if_pos hk] at h
      cases Option.some.inj h
      subst hk
      exact List.mem_cons_self _ _
    · rw [if_neg hk] at h
      exact List.mem_cons_of_mem _ (ih h)

/-- The `by_group` table is consistent with `by_id`: every stored
workload's id is registered under each of its isolation groups.  Index
states produced by `_update_index`/`_remove_from_index` satisfy this; the
claim's quantification over index states is read over such states. -/
def groupIndexConsistent (st : SIndex) : Bool :=
  st.workloads.all (fun p =>
    p.2.isolation_groups.all (fun g => ((lookupA st.byGroup g).getD []).contains p.1))

/-- The enumeration passed for the `reachable_ids` set covers every
member of the set (any CPython iteration of the set does). -/
def coversCandidates (st : SIndex) (caller : SWorkload)
    (ordering : List String) : Bool :=
  (candidateIds st caller).all (fun x => ordering.contains x)

theorem groupIndexConsistent_spec (st : SIndex)
    (h : groupIndexConsistent st = true) (wid : String) (w : SWorkload)
    (g : String) (hw : lookupA st.workloads wid = some w)
    (hg : g ∈ w.isolation_groups) :
    wid ∈ (lookupA st.byGroup g).getD [] := by
  have hmem := lookupA_mem _ _ _ hw
  rw [groupIndexConsistent, List.all_eq_true] at h
  have h2 := h (wid, w) hmem
  rw [List.all_eq_true] at h2
  have h3 := h2 g hg
  simpa using h3

theorem mem_pyDedup (x : String) (l : List String) : x ∈ pyDedup l ↔ x ∈ l := by
  suffices h : ∀ acc : List String,
      (x ∈ l.foldl (fun acc y => if acc.contains y then acc else acc ++ [y]) acc ↔
        x ∈ acc ∨ x ∈ l) by
    simpa [pyDedup] using h []
  induction l with
  | nil => intro acc; simp
  | cons y ys ih =>
    intro acc
    rw [List.foldl_cons, ih]
    by_cases hc : acc.contains y = true
    · rw [if_pos hc]
      have hy : y ∈ acc := by simpa using hc
      simp only [List.mem_cons]
      constructor
      · rintro (h1 | h2)
        · exact Or.inl h1
        · exact Or.inr (Or.inr h2)
      · rintro (h1 | h2 | h3)
        · exact Or.inl h1
        · exact Or.inl (h2 ▸ hy)
        · exact Or.inr h3
    · rw [if_neg hc]
      simp only [List.mem_append, List.mem_singleton, List.mem_cons]
      tauto

theorem mem_unionFold (st : SIndex) (x : String) (groups : List String) :
    ∀ acc : List String,
    (x ∈ groups.foldl
        (fun acc g =>
          acc ++ (((lookupA st.byGroup g).getD []).filter (fun y => !acc.contains y)))
        acc ↔
      x ∈ acc ∨ ∃ g ∈ groups, x ∈ (lookupA st.byGroup g).getD []) := by
  induction groups with
  | nil => intro acc; simp
  | cons g gs ih =>
    intro acc
    rw [List.foldl_cons, ih]
    have hstep : x ∈ acc ++ (((lookupA st.byGroup g).getD []).filter
        (fun y => !acc.contains y)) ↔
        x ∈ acc ∨ x ∈ (lookupA st.byGroup g).getD [] := by
      rw [List.mem_append, List.mem_filter]
      by_cases hx : x ∈ acc
      · simp [hx]
      · have hnx : (!acc.contains x) = true := by simpa using hx
        simp [hx, hnx]
    rw [hstep]
    simp only [List.mem_cons]
    constructor
    · rintro ((h1 | h2) | ⟨g', hg', hx'⟩)
      · exact Or.inl h1
      · exact Or.inr ⟨g, Or.inl rfl, h2⟩
      · exact Or.inr ⟨g', Or.inr hg', hx'⟩
    · rintro (h1 | ⟨g', hg' | hg', hx'⟩)
      · exact Or.inl (Or.inl h1)
      · exact Or.inl (Or.inr (hg' ▸ hx'))
      · exact Or.inr ⟨g', hg', hx'⟩

theorem mem_candidateIds (st : SIndex) (caller : SWorkload) (wid : String)
    (hne : wid ≠ caller.id)
    (hex : ∃ g ∈ pyDedup caller.isolation_groups,
      wid ∈ (lookupA st.byGroup g).getD []) :
    wid ∈ candidateIds st caller := by
  unfold candidateIds
  rw [List.mem_filter]
  exact ⟨(mem_unionFold st wid (pyDedup caller.isolation_groups) []).mpr
    (Or.inr hex), decide_eq_true hne⟩

theorem mem_buildReachable (st : SIndex) (cg ordering : List String)
    (wid : String) (w : SWorkload) (hmem : wid ∈ ordering)
    (hw : lookupA st.workloads wid = some w) :
    projectWorkload cg w ∈ buildReachable st cg ordering := by
  induction ordering with
  | nil => cases hmem
  | cons a rest ih =>
    rcases List.mem_cons.mp hmem with h1 | h2
    · subst h1
      unfold buildReachable
      rw [hw]
      exact List.mem_cons_self _ _
    · cases hl : lookupA st.workloads a with
      | none => simpa [buildReachable, hl] using ih h2
      | some w' =>
        have hmem' := ih h2
        simp only [buildReachable, hl]
        exact List.mem_cons_of_mem _ hmem'

/-- C1 (amended): for the server's `find_reachable`, every stored
workload other than the caller that shares at least one isolation group
with it contributes its projected record — identical to the stored
record except that `addresses` is the filtered list and
`isolation_groups` is the list of shared groups — to the returned
`reachable` sequence (for every consistent index state and every
candidate-set enumeration), and on the three-workload fixture
`find_reachable("w1host")` returns exactly caller `w1`, the single record
for `w2` with `addresses = ["db.netA"]` and `isolation_groups = ["netA"]`,
and `count = 1`.  The watcher's `find_reachable` does not project: it
returns each reachable workload with its full stored `addresses` and
`isolation_groups` (see the counterexample). -/
theorem C1_find_reachable_projects_shared :
    (∀ (st : SIndex) (idy : String) (caller : SWorkload)
        (ordering : List String) (res : SReachabilityResult)
        (wid : String) (w : SWorkload),
      serverFindReachableWith st idy ordering = some res →
      serverIdentify st idy = some caller →
      groupIndexConsistent st = true →
      coversCandidates st caller ordering = true →
      lookupA st.workloads wid = some w →
      wid ≠ caller.id →
      (∃ g, g ∈ caller.isolation_groups ∧ g ∈ w.isolation_groups) →
      projectWorkload (pyDedup caller.isolation_groups) w ∈ res.reachable) ∧
    serverFindReachableWith fxServerIndex "w1host" ["w2"] =
      some (SReachabilityResult.make fxW1 [fxW2Projected]) := by
  constructor
  · intro st idy caller ordering res wid w hres hid hcons hcov hw hne hshared
    unfold serverFindReachableWith at hres
    rw [hid] at hres
    dsimp only at hres
    rcases hshared with ⟨g, hg1, hg2⟩
    have hgd : g ∈ pyDedup caller.isolation_groups := (mem_pyDedup g _).mpr hg1
    have hnonempty : ¬ ((pyDedup caller.isolation_groups).isEmpty = true) := by
      intro he
      rw [List.isEmpty_iff] at he
      rw [he] at hgd
      cases hgd
    rw [if_neg hnonempty] at hres
    cases Option.some.inj hres
    show projectWorkload (pyDedup caller.isolation_groups) w ∈
      sortByName (buildReachable st (pyDedup caller.isolation_groups) ordering)
    unfold sortByName
    rw [mem_sortKeyed]
    have hbg : wid ∈ (lookupA st.byGroup g).getD [] :=
      groupIndexConsistent_spec st hcons wid w g hw hg2
    have hcand : wid ∈ candidateIds st caller :=
      mem_candidateIds st caller wid hne ⟨g, hgd, hbg⟩
    have hord : wid ∈ ordering := by
      rw [coversCandidates, List.all_eq_true] at hcov
      have hc := hcov wid hcand
      simpa using hc
    exact mem_buildReachable st _ ordering wid w hord hw
  · decide

/-- Witness for C1's general part at the end-to-end fixture: `w2` shares
`netA` with the caller `w1`, and its projected record is in the result. -/
theorem C1_witness :
    projectWorkload (pyDedup fxW1.isolation_groups) fxW2 ∈
      (SReachabilityResult.make fxW1 [fxW2Projected]).reachable :=
  C1_find_reachable_projects_shared.1 fxServerIndex "w1host" fxW1 ["w2"]
    (SReachabilityResult.make fxW1 [fxW2Projected]) "w2" fxW2
    (by decide) (by decide) (by decide) (by decide) (by decide)
    (by decide) ⟨"netA", by decide, by decide⟩

/-- Counterexample for C1 as stated: the claim's code sources include the
watcher's `find_reachable` (`watcher/storage/etcd.py`, lines 178-227),
which on the very fixture the claim cites returns `w2` with its full
stored `addresses = ["db.netA", "db.netB"]` and
`isolation_groups = ["netA", "netB"]` — not the projected record with the
filtered address list `["db.netA"]` and the shared groups `["netA"]`. -/
theorem C1_counterexample :
    (watcherFindReachableWith fxWatcherIndex "w1host" true ["w2"]).map
        (fun r => r.reachable.map (fun w => (w.addresses, w.isolation_groups))) =
      some [(["db.netA", "db.netB"], ["netA", "netB"])] ∧
    (∀ x ∈ ["w2"], x ∈ wCandidateIds fxWatcherIndex fxV1) ∧
    (∀ x ∈ wCandidateIds fxWatcherIndex fxV1, x ∈ ["w2"]) ∧
    watcherIdentify fxWatcherIndex "w1host" = some fxV1 ∧
    ¬ (["db.netA", "db.netB"] = ["db.netA"] ∧ ["netA", "netB"] = ["netA"]) := by
  refine ⟨by decide, by decide, by decide, by decide, by decide⟩

/-! ## Claim C6 — mutual consistency of the four index tables -/
theorem groupDiscard_lookup (bg : List (String × List String)) (g0 wid g : String) :
    lookupA (groupDiscard bg g0 wid) g =
      if g0 = g then
        (if ((lookupA bg g0).getD []).filter (fun x => x ≠ wid) = [] then none
         else some (((lookupA bg g0).getD []).filter (fun x => x ≠ wid)))
      else lookupA bg g := by
  unfold groupDiscard
  dsimp only
  by_cases he : ((lookupA bg g0).getD []).filter (fun x => x ≠ wid) = []
  · rw [if_pos he, lookupA_delA]
    by_cases hg : g0 = g
    · subst hg
      rw [if_pos rfl, if_pos rfl, if_pos he]
    · rw [if_neg hg, if_neg hg]
  · rw [if_neg he, lookupA_setA]
    by_cases hg : g0 = g
    · subst hg
      rw [if_pos rfl, if_pos rfl, if_neg he]
    · rw [if_neg hg, if_neg hg]

theorem groupAdd_lookup (bg : List (String × List String)) (g0 wid g : String) :
    lookupA (groupAdd bg g0 wid) g =
      if g0 = g then
        some (if wid ∈ (lookupA bg g0).getD [] then (lookupA bg g0).getD []
              else (lookupA bg g0).getD [] ++ [wid])
      else lookupA bg g := by
  unfold groupAdd
  dsimp only
  rw [lookupA_setA]

theorem fold_discard_lookup (wid : String) (gl : List String) :
    ∀ (bg : List (String × List String)) (g : String) (s : List String),
    lookupA (gl.foldl (fun b g' => groupDiscard b g' wid) bg) g = some s →
    (g ∉ gl → lookupA bg g = some s) ∧
    (g ∈ gl → s ≠ [] ∧ wid ∉ s ∧ ∀ x ∈ s, x ∈ (lookupA bg g).getD []) := by
  induction gl with
  | nil =>
    intro bg g s h
    exact ⟨fun _ => h, fun hmem => absurd hmem (List.not_mem_nil g)⟩
  | cons g0 gl' ih =>
    intro bg g s h
    rw [List.foldl_cons] at h
    obtain ⟨ihA, ihB⟩ := ih (groupDiscard bg g0 wid) g s h
    by_cases hg : g0 = g
    · subst hg
      refine ⟨fun hnot => absurd (List.mem_cons_self g0 gl') hnot, fun _ => ?_⟩
      by_cases hgl : g0 ∈ gl'
      · obtain ⟨hne, hwid, hsub⟩ := ihB hgl
        refine ⟨hne, hwid, ?_⟩
        intro x hx
        have hx2 := hsub x hx
        rw [groupDiscard_lookup, if_pos rfl] at hx2
        by_cases hf : ((lookupA bg g0).getD []).filter (fun y => y ≠ wid) = []
        · rw [if_pos hf] at hx2
          cases hx2
        · rw [if_neg hf] at hx2
          simp only [Option.getD_some] at hx2
          exact (List.mem_filter.mp hx2).1
      · have h2 := ihA hgl
        rw [groupDiscard_lookup, if_pos rfl] at h2
        by_cases hf : ((lookupA bg g0).getD []).filter (fun y => y ≠ wid) = []
        · rw [if_pos hf] at h2
          cases h2
        · rw [if_neg hf] at h2
          cases Option.some.inj h2
          refine ⟨hf, ?_, ?_⟩
          · intro hwid
            have := (List.mem_filter.mp hwid).2
            simp at this
          · intro x hx
            exact (List.mem_filter.mp hx).1
    · have hlg : lookupA (groupDiscard bg g0 wid) g = lookupA bg g := by
        rw [groupDiscard_lookup, if_neg hg]
      constructor
      · intro hnot
        have hg' : g ∉ gl' := fun hm => hnot (List.mem_cons_of_mem _ hm)
        rw [← hlg]
        exact ihA hg'
      · intro hmem
        rcases List.mem_cons.mp hmem with h1 | h2
        · exact absurd h1.symm hg
        · obtain ⟨hne, hwid, hsub⟩ := ihB h2
          refine ⟨hne, hwid, ?_⟩
          intro x hx
          have := hsub x hx
          rwa [hlg] at this

theorem fold_add_lookup (wid : String) (gl : List String) :
    ∀ (bg : List (String × List String)) (g : String) (s : List String),
    lookupA (gl.foldl (fun b g' => groupAdd b g' wid) bg) g = some s →
    (g ∉ gl → lookupA bg g = some s) ∧
    (g ∈ gl → s ≠ [] ∧ ∀ x ∈ s, x ∈ (lookupA bg g).getD [] ∨ x = wid) := by
  induction gl with
  | nil =>
    intro bg g s h
    exact ⟨fun _ => h, fun hmem => absurd hmem (List.not_mem_nil g)⟩
  | cons g0 gl' ih =>
    intro bg g s h
    rw [List.foldl_cons] at h
    obtain ⟨ihA, ihB⟩ := ih (groupAdd bg g0 wid) g s h
    by_cases hg : g0 = g
    · subst hg
      refine ⟨fun hnot => absurd (List.mem_cons_self g0 gl') hnot, fun _ => ?_⟩
      by_cases hgl : g0 ∈ gl'
      · obtain ⟨hne, hsub⟩ := ihB hgl
        refine ⟨hne, ?_⟩
        intro x hx
        rcases hsub x hx with hx2 | hx2
        · rw [groupAdd_lookup, if_pos rfl] at hx2
          simp only [Option.getD_some] at hx2
          by_cases hw : wid ∈ (lookupA bg g0).getD []
          · rw [if_pos hw] at hx2
            exact Or.inl hx2
          · rw [if_neg hw] at hx2
            rcases List.mem_append.mp hx2 with h3 | h3
            · exact Or.inl h3
            · exact Or.inr (List.mem_singleton.mp h3)
        · exact Or.inr hx2
      · have h2 := ihA hgl
        rw [groupAdd_lookup, if_pos rfl] at h2
        cases Option.some.inj h2
        by_cases hw : wid ∈ (lookupA bg g0).getD []
        · rw [if_pos hw]
          constructor
          · intro he
            rw [he] at hw
            cases hw
          · intro x hx
            exact Or.inl hx
        · rw [if_neg hw]
          constructor
          · simp
          · intro x hx
            rcases List.mem_append.mp hx with h3 | h3
            · exact Or.inl h3
            · exact Or.inr (List.mem_singleton.mp h3)
    · have hlg : lookupA (groupAdd bg g0 wid) g = lookupA bg g := by
        rw [groupAdd_lookup, if_neg hg]
      constructor
      · intro hnot
        have hg' : g ∉ gl' := fun hm => hnot (List.mem_cons_of_mem _ hm)
        rw [← hlg]
        exact ihA hg'
      · intro hmem
        rcases List.mem_cons.mp hmem with h1 | h2
        · exact absurd h1.symm hg
        · obtain ⟨hne, hsub⟩ := ihB h2
          refine ⟨hne, ?_⟩
          intro x hx
          have := hsub x hx
          rwa [hlg] at this

/-- The strengthened invariant maintained by `_update_index` /
`_remove_from_index`: every reverse pointer targets a live workload whose
own fields justify the pointer (its hostname for `by_hostname`, one of its
two name forms for `by_name`, membership of the group for `by_group`),
and group entries are non-empty. -/
def InvS (st : SIndex) : Prop :=
  (∀ h wid, lookupA st.byHostname h = some wid →
    ∃ w, lookupA st.workloads wid = some w ∧ w.hostname = h ∧ h ≠ "") ∧
  (∀ n wid, lookupA st.byName n = some wid →
    ∃ w, lookupA st.workloads wid = some w ∧ (n = w.name ∨ n = nsNameKey w)) ∧
  (∀ g s, lookupA st.byGroup g = some s →
    s ≠ [] ∧ ∀ wid ∈ s, ∃ w, lookupA st.workloads wid = some w ∧
      g ∈ w.isolation_groups)

theorem removeFromIndex_workloads_lookup (st : SIndex) (wid x : String) :
    lookupA (removeFromIndex st wid).workloads x =
      if wid = x then none else lookupA st.workloads x := by
  unfold removeFromIndex
  cases hw : lookupA st.workloads wid with
  | none =>
    by_cases hx : wid = x
    · subst hx
      rw [if_pos rfl, hw]
    · rw [if_neg hx]
  | some w =>
    dsimp only
    rw [lookupA_delA]

theorem remove_preserves_inv (st : SIndex) (wid : String) (hInv : InvS st) :
    InvS (removeFromIndex st wid) := by
  obtain ⟨hH, hN, hG⟩ := hInv
  cases hw : lookupA st.workloads wid with
  | none =>
    unfold removeFromIndex
    rw [hw]
    exact ⟨hH, hN, hG⟩
  | some w =>
    unfold removeFromIndex
    rw [hw]
    refine ⟨?_, ?_, ?_⟩
    · -- by_hostname
      intro h wid' hl
      dsimp only at hl
      by_cases hc : w.hostname ≠ "" ∧ lookupA st.byHostname w.hostname = some wid
      · rw [if_pos hc, lookupA_delA] at hl
        by_cases hh : w.hostname = h
        · rw [if_pos hh] at hl
          cases hl
        · rw [if_neg hh] at hl
          obtain ⟨w', hw', hwh, hne⟩ := hH h wid' hl
          have hne2 : wid ≠ wid' := by
            intro he
            rw [← he, hw] at hw'
            cases Option.some.inj hw'
            exact hh hwh
          exact ⟨w', by rw [lookupA_delA, if_neg hne2]; exact hw', hwh, hne⟩
      · rw [if_neg hc] at hl
        obtain ⟨w', hw', hwh, hne⟩ := hH h wid' hl
        have hne2 : wid ≠ wid' := by
          intro he
          rw [← he, hw] at hw'
          cases Option.some.inj hw'
          refine hc ⟨?_, ?_⟩
          · rw [hwh]
            exact hne
          · rw [hwh, he]
            exact hl
        exact ⟨w', by rw [lookupA_delA, if_neg hne2]; exact hw', hwh, hne⟩
    · -- by_name
      intro n wid' hl
      dsimp only at hl
      have hchain : lookupA st.byName n = some wid' := by
        by_cases h1 : lookupA st.byName (nsNameKey w) = some wid
        · rw [if_pos h1] at hl
          by_cases h2 : lookupA (delA st.byName (nsNameKey w)) w.name = some wid
          · rw [if_pos h2, lookupA_delA] at hl
            by_cases hn2 : w.name = n
            · rw [if_pos hn2] at hl
              cases hl
            · rw [if_neg hn2, lookupA_delA] at hl
              by_cases hn1 : nsNameKey w = n
              · rw [if_pos hn1] at hl
                cases hl
              · rwa [if_neg hn1] at hl
          · rw [if_neg h2, lookupA_delA] at hl
            by_cases hn1 : nsNameKey w = n
            · rw [if_pos hn1] at hl
              cases hl
            · rwa [if_neg hn1] at hl
        · rw [if_neg h1] at hl
          by_cases h2 : lookupA st.byName w.name = some wid
          · rw [if_pos h2, lookupA_delA] at hl
            by_cases hn2 : w.name = n
            · rw [if_pos hn2] at hl
              cases hl
            · rwa [if_neg hn2] at hl
          · rwa [if_neg h2] at hl
      obtain ⟨w', hw', hdisj⟩ := hN n wid' hchain
      have hne2 : wid ≠ wid' := by
        intro he
        rw [← he, hw] at hw'
        cases Option.some.inj hw'
        rcases hdisj with hn | hn
        · -- n = w.name: the plain-name pointer to wid was deleted
          subst hn
          rw [← he] at hchain
          by_cases h1 : lookupA st.byName (nsNameKey w) = some wid
          · rw [if_pos h1] at hl
            by_cases h2 : lookupA (delA st.byName (nsNameKey w)) w.name = some wid
            · rw [if_pos h2, lookupA_delA, if_pos rfl] at hl
              cases hl
            · by_cases hnk : nsNameKey w = w.name
              · have hnone : lookupA (delA st.byName (nsNameKey w)) w.name = none := by
                  rw [lookupA_delA, if_pos hnk]
                rw [if_neg h2, hnone] at hl
                cases hl
              · have hsame : lookupA (delA st.byName (nsNameKey w)) w.name =
                    some wid := by
                  rw [lookupA_delA, if_neg hnk]
                  exact hchain
                exact h2 hsame
          · rw [if_neg h1, if_pos hchain, lookupA_delA, if_pos rfl] at hl
            cases hl
        · -- n = nsNameKey w: the namespaced pointer to wid was deleted
          subst hn
          rw [← he] at hchain
          rw [if_pos hchain] at hl
          by_cases h2 : lookupA (delA st.byName (nsNameKey w)) w.name = some wid
          · rw [if_pos h2, lookupA_delA] at hl
            by_cases hnk : w.name = nsNameKey w
            · rw [if_pos hnk] at hl
              cases hl
            · rw [if_neg hnk, lookupA_delA, if_pos rfl] at hl
              cases hl
          · rw [if_neg h2, lookupA_delA, if_pos rfl] at hl
            cases hl
      exact ⟨w', by rw [lookupA_delA, if_neg hne2]; exact hw', hdisj⟩
    · -- by_group
      intro g s hl
      dsimp only at hl
      obtain ⟨hA, hB⟩ := fold_discard_lookup wid w.isolation_groups st.byGroup g s hl
      by_cases hmem : g ∈ w.isolation_groups
      · obtain ⟨hne, hwidnot, hsub⟩ := hB hmem
        refine ⟨hne, ?_⟩
        intro x hx
        have hxin := hsub x hx
        cases horig : lookupA st.byGroup g with
        | none =>
          rw [horig] at hxin
          cases hxin
        | some sOrig =>
          rw [horig] at hxin
          simp only [Option.getD_some] at hxin
          obtain ⟨hne', hGmem⟩ := hG g sOrig horig
          obtain ⟨w', hw', hgw'⟩ := hGmem x hxin
          have hxwid : wid ≠ x := fun he => hwidnot (he ▸ hx)
          exact ⟨w', by rw [lookupA_delA, if_neg hxwid]; exact hw', hgw'⟩
      · have hA2 := hA hmem
        obtain ⟨hne, hGmem⟩ := hG g s hA2
        refine ⟨hne, ?_⟩
        intro x hx
        obtain ⟨w', hw', hgw'⟩ := hGmem x hx
        have hxwid : wid ≠ x := by
          intro he
          rw [← he, hw] at hw'
          cases Option.some.inj hw'
          exact hmem hgw'
        exact ⟨w', by rw [lookupA_delA, if_neg hxwid]; exact hw', hgw'⟩

theorem update_preserves_inv (st : SIndex) (wid : String) (w : SWorkload)
    (hInv : InvS st) : InvS (updateIndex st wid w) := by
  obtain ⟨hH, hN, hG⟩ := remove_preserves_inv st wid hInv
  have hw0 : lookupA (removeFromIndex st wid).workloads wid = none := by
    rw [removeFromIndex_workloads_lookup, if_pos rfl]
  unfold updateIndex
  refine ⟨?_, ?_, ?_⟩
  · -- by_hostname
    intro h wid' hl
    dsimp only at hl ⊢
    by_cases hhost : w.hostname ≠ ""
    · rw [if_pos hhost, lookupA_setA] at hl
      by_cases hh : w.hostname = h
      · rw [if_pos hh] at hl
        cases Option.some.inj hl
        refine ⟨w, ?_, hh, ?_⟩
        · rw [lookupA_setA, if_pos rfl]
        · rw [← hh]
          exact hhost
      · rw [if_neg hh] at hl
        obtain ⟨w', hw', hwh, hne⟩ := hH h wid' hl
        have hne2 : wid ≠ wid' := by
          intro he
          rw [← he, hw0] at hw'
          cases hw'
        exact ⟨w', by rw [lookupA_setA, if_neg hne2]; exact hw', hwh, hne⟩
    · rw [if_neg hhost] at hl
      obtain ⟨w', hw', hwh, hne⟩ := hH h wid' hl
      have hne2 : wid ≠ wid' := by
        intro he
        rw [← he, hw0] at hw'
        cases hw'
      exact ⟨w', by rw [lookupA_setA, if_neg hne2]; exact hw', hwh, hne⟩
  · -- by_name
    intro n wid' hl
    dsimp only at hl ⊢
    rw [lookupA_setA] at hl
    by_cases hn : w.name = n
    · rw [if_pos hn] at hl
      cases Option.some.inj hl
      exact ⟨w, by rw [lookupA_setA, if_pos rfl], Or.inl hn.symm⟩
    · rw [if_neg hn] at hl
      split at hl
      next s0 heq =>
        rw [lookupA_setA] at hl
        by_cases hk : s0 ++ "/" ++ w.name = n
        · rw [if_pos hk] at hl
          cases Option.some.inj hl
          refine ⟨w, by rw [lookupA_setA, if_pos rfl], Or.inr ?_⟩
          unfold nsNameKey
          rw [heq]
          exact hk.symm
        · rw [if_neg hk] at hl
          obtain ⟨w', hw', hdisj⟩ := hN n wid' hl
          have hne2 : wid ≠ wid' := by
            intro he
            rw [← he, hw0] at hw'
            cases hw'
          exact ⟨w', by rw [lookupA_setA, if_neg hne2]; exact hw', hdisj⟩
      next heq =>
        obtain ⟨w', hw', hdisj⟩ := hN n wid' hl
        have hne2 : wid ≠ wid' := by
          intro he
          rw [← he, hw0] at hw'
          cases hw'
        exact ⟨w', by rw [lookupA_setA, if_neg hne2]; exact hw', hdisj⟩
  · -- by_group
    intro g s hl
    dsimp only at hl ⊢
    obtain ⟨hA, hB⟩ :=
      fold_add_lookup wid w.isolation_groups (removeFromIndex st wid).byGroup g s hl
    by_cases hmem : g ∈ w.isolation_groups
    · obtain ⟨hne, hsub⟩ := hB hmem
      refine ⟨hne, ?_⟩
      intro x hx
      rcases hsub x hx with hx2 | hx2
      · cases horig : lookupA (removeFromIndex st wid).byGroup g with
        | none =>
          rw [horig] at hx2
          cases hx2
        | some sOld =>
          rw [horig] at hx2
          simp only [Option.getD_some] at hx2
          obtain ⟨hne', hGm⟩ := hG g sOld horig
          obtain ⟨w', hw', hgw'⟩ := hGm x hx2
          have hxwid : wid ≠ x := by
            intro he
            rw [← he, hw0] at hw'
            cases hw'
          exact ⟨w', by rw [lookupA_setA, if_neg hxwid]; exact hw', hgw'⟩
      · subst hx2
        exact ⟨w, by rw [lookupA_setA, if_pos rfl], hmem⟩
    · have hA2 := hA hmem
      obtain ⟨hne, hGm⟩ := hG g s hA2
      refine ⟨hne, ?_⟩
      intro x hx
      obtain ⟨w', hw', hgw'⟩ := hGm x hx
      have hxwid : wid ≠ x := by
        intro he
        rw [← he, hw0] at hw'
        cases hw'
      exact ⟨w', by rw [lookupA_setA, if_neg hxwid]; exact hw', hgw'⟩

theorem invS_empty : InvS emptySIndex := by
  refine ⟨?_, ?_, ?_⟩ <;> intro a b h <;> cases h

theorem invS_applyOps (ops : List IndexOp) : InvS (applyOps emptySIndex ops) := by
  suffices h : ∀ st, InvS st → InvS (applyOps st ops) from h _ invS_empty
  induction ops with
  | nil => intro st h; exact h
  | cons op rest ih =>
    intro st h
    unfold applyOps at ih ⊢
    rw [List.foldl_cons]
    refine ih _ ?_
    cases op with
    | update wid w => exact update_preserves_inv st wid w h
    | remove wid => exact remove_preserves_inv st wid h

/-- C6 (amended, part (b) of the claim): after any sequence of
`update`/`remove` operations from the empty index, every id stored in
`by_hostname` or `by_name`, and every member of a `by_group` set, is a key
of `by_id`, and every `by_group` entry is non-empty.  Part (a) of the
claim — every id in `by_id` has at least one reverse pointer — does not
hold in general (see the counterexample): a later `update` with the same
hostname and name overwrites every reverse pointer to a still-indexed id. -/
theorem C6_reverse_pointers_sound (ops : List IndexOp) :
    (∀ h wid, lookupA (applyOps emptySIndex ops).byHostname h = some wid →
      (lookupA (applyOps emptySIndex ops).workloads wid).isSome) ∧
    (∀ n wid, lookupA (applyOps emptySIndex ops).byName n = some wid →
      (lookupA (applyOps emptySIndex ops).workloads wid).isSome) ∧
    (∀ g s, lookupA (applyOps emptySIndex ops).byGroup g = some s →
      s ≠ [] ∧ ∀ wid ∈ s, (lookupA (applyOps emptySIndex ops).workloads wid).isSome) := by
  obtain ⟨hH, hN, hG⟩ := invS_applyOps ops
  refine ⟨?_, ?_, ?_⟩
  · intro h wid hl
    obtain ⟨w, hw, _, _⟩ := hH h wid hl
    rw [hw]
    rfl
  · intro n wid hl
    obtain ⟨w, hw, _⟩ := hN n wid hl
    rw [hw]
    rfl
  · intro g s hl
    obtain ⟨hne, hmem⟩ := hG g s hl
    refine ⟨hne, ?_⟩
    intro wid hwid
    obtain ⟨w, hw, _⟩ := hmem wid hwid
    rw [hw]
    rfl

/-- A workload with no isolation groups, indexed under id `"a"`. -/
def cexC6Wa : SWorkload :=
  { id := "a", name := "n", hostname := "h", runtime := "docker",
    workload_type := "container" }

/-- A second workload with the same name and hostname, id `"b"`. -/
def cexC6Wb : SWorkload :=
  { id := "b", name := "n", hostname := "h", runtime := "docker",
    workload_type := "container" }

/-- Two updates whose second overwrites every reverse pointer of the
first. -/
def cexC6Ops : List IndexOp :=
  [IndexOp.update "a" cexC6Wa, IndexOp.update "b" cexC6Wb]

/-- Counterexample for C6 part (a) as stated: after
`update("a", Wa); update("b", Wb)` with equal hostnames and names and no
groups, id `"a"` is still a key of `by_id`, yet no entry of `by_hostname`,
`by_name` or `by_group` points to it. -/
theorem C6_counterexample :
    (lookupA (applyOps emptySIndex cexC6Ops).workloads "a").isSome ∧
    ((applyOps emptySIndex cexC6Ops).byHostname.all (fun p => p.2 ≠ "a")) = true ∧
    ((applyOps emptySIndex cexC6Ops).byName.all (fun p => p.2 ≠ "a")) = true ∧
    (applyOps emptySIndex cexC6Ops).byGroup = [] := by
  refine ⟨by decide, by decide, by decide, by decide⟩

/-- Witness for C6 at a concrete operation sequence: after one update the
hostname pointer resolves, so the pointed-to id is a `by_id` key. -/
theorem C6_witness :
    (lookupA (applyOps emptySIndex [IndexOp.update "a" cexC6Wa]).workloads
      "a").isSome :=
  (C6_reverse_pointers_sound [IndexOp.update "a" cexC6Wa]).1 "h" "a" (by decide)
